import Mathlib

/-!
Verification of the password-generation core of the `rcli` command-line tool
(`src/process/gen_pass.rs`).  The Rust code is shallowly embedded: byte slices
become `List Nat` of byte values, `Result<T>` becomes `Except String T`, and
the process-wide random source `rand::rng()` is embedded as an explicit
infinite stream of natural numbers `g : Nat → Nat` that is threaded through
the computation; each draw consumes `g 0` and continues with the shifted
stream.  A uniform index draw in `0..n` (rand's `choose` / `gen_index`) is
modelled as `r % n` for the consumed raw value `r`.
-/

namespace RCli

/-- Uppercase pool, gen_pass.rs line 5: bytes of "ABCDEFGHJKLMNPQRSTUVWXYZ"
(the letters I and O are absent from the literal). -/
def UPPER : List Nat := "ABCDEFGHJKLMNPQRSTUVWXYZ".toList.map Char.toNat

/-- Lowercase pool, gen_pass.rs line 6: bytes of "abcdefghijkmnopqrstuvwxyz"
(the letter l is absent from the literal). -/
def LOWER : List Nat := "abcdefghijkmnopqrstuvwxyz".toList.map Char.toNat

/-- Digit pool, gen_pass.rs line 7: bytes of "123456789" (0 is absent). -/
def NUMBER : List Nat := "123456789".toList.map Char.toNat

/-- Symbol pool, gen_pass.rs line 8: bytes of "!@#$%^&*_". -/
def SYMBOL : List Nat := "!@#$%^&*_".toList.map Char.toNat

/-- PasswordConfig, gen_pass.rs lines 12-18.  The Rust `length` field is a
`u8`; it is embedded as `Nat` (all reachable values fit, and the validator
re-checks the 128 bound). -/
structure PasswordConfig where
  length : Nat
  use_upper : Bool
  use_lower : Bool
  use_number : Bool
  use_symbol : Bool
deriving DecidableEq, Repr

/-- One draw from the random stream: the drawn raw value and the rest of the
stream. -/
def rngNext (g : Nat → Nat) : Nat × (Nat → Nat) := (g 0, fun n => g (n + 1))

/-- Model of rand's `IndexedRandom::choose` on a slice: `none` on the empty
slice, otherwise the element at a uniformly drawn index (embedded as
`r % length`). -/
def listChoose (l : List Nat) (r : Nat) : Option Nat := l[r % l.length]?

/-- CharSetBuilder, gen_pass.rs lines 21-24. -/
structure CharSetBuilder where
  chars : List Nat
  required_chars : List Nat
deriving DecidableEq, Repr

/-- CharSetBuilder::new, gen_pass.rs lines 27-32. -/
def CharSetBuilder.new : CharSetBuilder := ⟨[], []⟩

/-- CharSetBuilder::add_charset, gen_pass.rs lines 34-52: skip when disabled,
fail on an empty charset, otherwise extend the pool with the whole charset and
push one randomly chosen required character. -/
def CharSetBuilder.add_charset (self : CharSetBuilder) (charset : List Nat)
    (enabled : Bool) (g : Nat → Nat) : Except String (CharSetBuilder × (Nat → Nat)) :=
  if !enabled then .ok (self, g)
  else if charset.isEmpty then .error "Character set cannot be empty"
  else
    let r := (rngNext g).1
    match listChoose charset r with
    | none => .error "Failed to select random character"
    | some c =>
        .ok (⟨self.chars ++ charset, self.required_chars ++ [c]⟩, (rngNext g).2)

/-- CharSetBuilder::build, gen_pass.rs lines 54-56. -/
def CharSetBuilder.build (self : CharSetBuilder) : List Nat × List Nat :=
  (self.chars, self.required_chars)

/-- The error message of the fourth validator check, gen_pass.rs lines 84-89
(the `anyhow!` format string instantiated). -/
def lengthTooShortMsg (len k : Nat) : String :=
  "Password length " ++ toString len ++ " is too short for " ++ toString k ++
    " required character types"

/-- validate_password_config, gen_pass.rs lines 60-93: the four checks in
source order. -/
def validate_password_config (config : PasswordConfig) : Except String Unit :=
  if config.length = 0 then .error "Password length cannot be zero"
  else if config.length > 128 then .error "Password length cannot exceed 128 characters"
  else if !config.use_upper && !config.use_lower && !config.use_number && !config.use_symbol then
    .error "At least one character type must be selected"
  else
    let required_types :=
      ([config.use_upper, config.use_lower, config.use_number, config.use_symbol].filter
        (fun x => x)).length
    if config.length < required_types then
      .error (lengthTooShortMsg config.length required_types)
    else .ok ()

/-- Model of `Vec::swap i j` on a list (both indices in range in every use
below): write the element at `j` into position `i` and vice versa. -/
def swapIdx (l : List Nat) (i j : Nat) : List Nat :=
  (l.set i (l.getD j 0)).set j (l.getD i 0)

/-- Fisher-Yates driven by an explicit list of already-bounded index draws
`js = [j_(n-1), ..., j_0]`: the head entry `j` swaps position `js.length`
(the highest position not yet locked) with position `j`. -/
def shuffleWith : List Nat → List Nat → List Nat
  | [], l => l
  | j :: js, l => shuffleWith js (swapIdx l js.length j)

/-- The index draws rand's `shuffle` makes on a slice of length `n`: for the
positions `n-1, n-2, ..., 0` in that order, a uniform draw in `0..=i`
(embedded as `r % (i+1)` for the raw stream value `r`). -/
def drawJs (g : Nat → Nat) : Nat → List Nat
  | 0 => []
  | i + 1 => (rngNext g).1 % (i + 1) :: drawJs (rngNext g).2 i

/-- Model of `SliceRandom::shuffle`, used at gen_pass.rs line 126: Fisher-Yates
with one uniform index draw per position from the top down. -/
def shuffle (l : List Nat) (g : Nat → Nat) : List Nat :=
  shuffleWith (drawJs g l.length) l

/-- The fill loop of generate_password, gen_pass.rs lines 117-123: draw `k`
characters from `available` with `choose`, failing (unreachably) if `choose`
returns `none`; returns the drawn characters in draw order and the advanced
stream. -/
def fillChars (available : List Nat) (g : Nat → Nat) :
    Nat → Except String (List Nat × (Nat → Nat))
  | 0 => .ok ([], g)
  | k + 1 =>
    match listChoose available (rngNext g).1 with
    | none => .error "Failed to select random character from available set"
    | some c =>
      match fillChars available (rngNext g).2 k with
      | .error e => .error e
      | .ok (cs, g') => .ok (c :: cs, g')

/-- One step of the standard UTF-8 acceptance automaton, as run by Rust's
`String::from_utf8`.  State 0 expects a leading byte; state 1 expects one
generic continuation byte (0x80-0xBF) and then accepts; states 2, 3 and 4
expect the restricted second byte of a 3-byte sequence (E0: A0-BF, ED:
80-9F, generic: 80-BF) and then one more continuation; states 5, 6 and 7
expect the restricted second byte of a 4-byte sequence (F0: 90-BF, F4:
80-8F, generic: 80-BF) and then two more continuations.  `none` rejects. -/
def utf8Step (st b : Nat) : Option Nat :=
  if st = 0 then
    if b < 128 then some 0
    else if 194 ≤ b && b ≤ 223 then some 1
    else if b = 224 then some 2
    else if (225 ≤ b && b ≤ 236) || b = 238 || b = 239 then some 4
    else if b = 237 then some 3
    else if b = 240 then some 5
    else if 241 ≤ b && b ≤ 243 then some 7
    else if b = 244 then some 6
    else none
  else if st = 1 then if 128 ≤ b && b < 192 then some 0 else none
  else if st = 2 then if 160 ≤ b && b < 192 then some 1 else none
  else if st = 3 then if 128 ≤ b && b < 160 then some 1 else none
  else if st = 4 then if 128 ≤ b && b < 192 then some 1 else none
  else if st = 5 then if 144 ≤ b && b < 192 then some 4 else none
  else if st = 6 then if 128 ≤ b && b < 144 then some 4 else none
  else if st = 7 then if 128 ≤ b && b < 192 then some 4 else none
  else none

/-- Run the UTF-8 automaton over a byte list. -/
def utf8Run : Nat → List Nat → Option Nat
  | st, [] => some st
  | st, b :: rest =>
    match utf8Step st b with
    | none => none
    | some st2 => utf8Run st2 rest

/-- Byte-level UTF-8 validity, the check performed by Rust's
`String::from_utf8` at gen_pass.rs lines 129-131: the automaton accepts the
whole list and ends outside a multi-byte sequence. -/
def utf8Valid (l : List Nat) : Bool := utf8Run 0 l == some 0

/-- The four sequential add_charset calls of generate_password, gen_pass.rs
lines 97-104, in source order Upper, Lower, Number, Symbol. -/
def assembleCharsets (config : PasswordConfig) (g : Nat → Nat) :
    Except String (CharSetBuilder × (Nat → Nat)) :=
  match CharSetBuilder.new.add_charset UPPER config.use_upper g with
  | .error e => .error e
  | .ok (b1, g1) =>
    match b1.add_charset LOWER config.use_lower g1 with
    | .error e => .error e
    | .ok (b2, g2) =>
      match b2.add_charset NUMBER config.use_number g2 with
      | .error e => .error e
      | .ok (b3, g3) =>
        match b3.add_charset SYMBOL config.use_symbol g3 with
        | .error e => .error e
        | .ok (b4, g4) => .ok (b4, g4)

/-- The error message of the encoding branch, gen_pass.rs lines 129-131
(without the appended formatted cause). -/
def encodingErrorMsg : String := "Failed to convert password to string"

/-- The message standing for the debug-build panic of the `u8` subtraction
`config.length - password_chars.len() as u8` at gen_pass.rs line 113 when the
required characters outnumber `config.length`. -/
def underflowMsg : String := "attempt to subtract with overflow"

/-- generate_password, gen_pass.rs lines 96-131: assemble the charsets, seed
with the required characters, fill the remaining positions with uniform draws
from the pool, shuffle, and convert to a string.  The password is returned as
its byte list. -/
def generate_password (config : PasswordConfig) (g : Nat → Nat) :
    Except String (List Nat) :=
  match assembleCharsets config g with
  | .error e => .error e
  | .ok (b, g4) =>
    let available_chars := b.build.1
    let required_chars := b.build.2
    if available_chars.isEmpty then
      .error "No available characters for password generation"
    else if config.length < required_chars.length then
      .error underflowMsg
    else
      let remaining_length := config.length - required_chars.length
      match fillChars available_chars g4 remaining_length with
      | .error e => .error e
      | .ok (fill, g5) =>
        let password_chars := required_chars ++ fill
        let shuffled := shuffle password_chars g5
        if utf8Valid shuffled then .ok shuffled else .error encodingErrorMsg

/-- The qualitative label printed for a score tier, gen_pass.rs lines 140-153:
0 and 1 are weak, 2 and 3 moderate, 4 strong, anything else the catch-all
branch.  The zxcvbn score is external to the repository; it is embedded as a
plain `Nat` so that the catch-all arm of the source `match` is the case
`5 ≤ score`. -/
def strengthLine (score : Nat) : String :=
  if score = 0 then "Weak password - consider adding more characters or complexity"
  else if score = 1 then "Weak password - consider adding more characters or complexity"
  else if score = 2 then "Moderate password strength"
  else if score = 3 then "Moderate password strength"
  else if score = 4 then "Strong password"
  else "Unknown password strength score"

/-- evaluate_password_strength, gen_pass.rs lines 134-165: the diagnostic
(stderr) lines produced for a password.  Modelled from the spec where it
leaves the repository: the zxcvbn estimate is abstracted as its `score : Nat`,
and the estimator-supplied feedback texts (warning and suggestions, which are
opaque external data) are omitted; what remains is the score line and the
tier label, which is all the source computes itself. -/
def evaluate_password_strength (password : List Nat) (score : Nat) : List String :=
  ("Password strength: " ++ toString score) :: [strengthLine score]

/-- process_genpass, gen_pass.rs lines 168-194: build the config, validate,
generate, print the password on stdout and the strength report on stderr.
The result is the returned `Result<()>` together with the stdout lines (each
a password byte list) and the stderr lines.  The external zxcvbn score is a
parameter, as in `evaluate_password_strength`. -/
def process_genpass (length : Nat) (upper lower number symbol : Bool)
    (g : Nat → Nat) (score : Nat) :
    Except String Unit × List (List Nat) × List String :=
  let config : PasswordConfig := ⟨length, upper, lower, number, symbol⟩
  match validate_password_config config with
  | .error e => (.error e, [], [])
  | .ok _ =>
    match generate_password config g with
    | .error e => (.error e, [], [])
    | .ok password =>
      (.ok (), [password], evaluate_password_strength password score)

/-- The number of included character classes of a config (the
`required_types` count of the validator, gen_pass.rs lines 73-82). -/
def includeCount (config : PasswordConfig) : Nat :=
  ([config.use_upper, config.use_lower, config.use_number, config.use_symbol].filter
    (fun x => x)).length

/-- The concatenation, in the fixed source order Upper, Lower, Number,
Symbol, of the pools of the included classes. -/
def includedPool (config : PasswordConfig) : List Nat :=
  (if config.use_upper then UPPER else []) ++
    (if config.use_lower then LOWER else []) ++
      (if config.use_number then NUMBER else []) ++
        (if config.use_symbol then SYMBOL else [])

/-- The product over the distinct elements of `l` of the factorial of their
multiplicities, in recursive form: every arrangement of the multiset of `l`
is produced by exactly this many Fisher-Yates draw vectors. -/
def prodFact : List Nat → Nat
  | [] => 1
  | a :: s => (s.count a + 1) * prodFact s

/-- All Fisher-Yates draw vectors for a list of length `n`:
`[j_(n-1), ..., j_0]` with `j_i ≤ i`. -/
def choiceSpace : Nat → Finset (List Nat)
  | 0 => {[]}
  | n + 1 => (Finset.range (n + 1)).biUnion
      (fun j => (choiceSpace n).image (fun js => j :: js))

/-- How many draw vectors make the shuffle of `l` produce exactly `t`. -/
def shuffleCount (l t : List Nat) : Nat :=
  ((choiceSpace l.length).filter (fun js => shuffleWith js l = t)).card

/-- What one add_charset call appends to `required_chars`: nothing when the
class is disabled, exactly one character of the class pool when enabled. -/
def pickOf (enabled : Bool) (pool r : List Nat) : Prop :=
  if enabled then ∃ c, r = [c] ∧ c ∈ pool else r = []

/-- Well-formed Fisher-Yates draw vectors: each entry is at most the position
it swaps with (which is the length of the remaining vector). -/
def goodJs : List Nat → Prop
  | [] => True
  | j :: js => j ≤ js.length ∧ goodJs js

/-- Every error message `generate_password` can actually return. -/
def genpassErrors : List String :=
  ["Character set cannot be empty",
   "Failed to select random character",
   "No available characters for password generation",
   underflowMsg,
   "Failed to select random character from available set"]

/- ------------------------------------------------------------------ -/
/- Helper lemmas                                                       -/
/- ------------------------------------------------------------------ -/

theorem UPPER_ne_nil : UPPER ≠ [] := by decide

theorem LOWER_ne_nil : LOWER ≠ [] := by decide

theorem NUMBER_ne_nil : NUMBER ≠ [] := by decide

theorem SYMBOL_ne_nil : SYMBOL ≠ [] := by decide

theorem add_charset_spec (b : CharSetBuilder) (pool : List Nat) (e : Bool) (g : Nat → Nat)
    (hp : pool ≠ []) :
    ∃ r g', b.add_charset pool e g =
      .ok (⟨b.chars ++ (if e then pool else []), b.required_chars ++ r⟩, g') ∧ pickOf e pool r := by
  cases e with
  | false =>
    refine ⟨[], g, ?_, ?_⟩
    · simp [CharSetBuilder.add_charset]
    · simp [pickOf]
  | true =>
    have hlen : 0 < pool.length := List.length_pos.mpr hp
    have hidx : (rngNext g).1 % pool.length < pool.length := Nat.mod_lt _ hlen
    refine ⟨[pool[(rngNext g).1 % pool.length]], (rngNext g).2, ?_, ?_⟩
    · simp [CharSetBuilder.add_charset, hp, listChoose, List.getElem?_eq_getElem hidx]
    · exact ⟨_, rfl, List.getElem_mem _⟩

theorem assembleCharsets_spec (cfg : PasswordConfig) (g : Nat → Nat) :
    ∃ ru rl rn rs g', assembleCharsets cfg g =
      .ok (⟨includedPool cfg, ru ++ (rl ++ (rn ++ rs))⟩, g') ∧
      pickOf cfg.use_upper UPPER ru ∧ pickOf cfg.use_lower LOWER rl ∧
      pickOf cfg.use_number NUMBER rn ∧ pickOf cfg.use_symbol SYMBOL rs := by
  obtain ⟨ru, g1, h1, p1⟩ :=
    add_charset_spec CharSetBuilder.new UPPER cfg.use_upper g UPPER_ne_nil
  obtain ⟨rl, g2, h2, p2⟩ :=
    add_charset_spec ⟨CharSetBuilder.new.chars ++ (if cfg.use_upper then UPPER else []),
      CharSetBuilder.new.required_chars ++ ru⟩ LOWER cfg.use_lower g1 LOWER_ne_nil
  obtain ⟨rn, g3, h3, p3⟩ :=
    add_charset_spec ⟨(CharSetBuilder.new.chars ++ (if cfg.use_upper then UPPER else [])) ++
        (if cfg.use_lower then LOWER else []),
      (CharSetBuilder.new.required_chars ++ ru) ++ rl⟩ NUMBER cfg.use_number g2 NUMBER_ne_nil
  obtain ⟨rs, g4, h4, p4⟩ :=
    add_charset_spec ⟨((CharSetBuilder.new.chars ++ (if cfg.use_upper then UPPER else [])) ++
          (if cfg.use_lower then LOWER else [])) ++ (if cfg.use_number then NUMBER else []),
      ((CharSetBuilder.new.required_chars ++ ru) ++ rl) ++ rn⟩ SYMBOL cfg.use_symbol g3
      SYMBOL_ne_nil
  refine ⟨ru, rl, rn, rs, g4, ?_, p1, p2, p3, p4⟩
  simp only [assembleCharsets, h1, h2, h3, h4]
  simp [CharSetBuilder.new, includedPool, List.append_assoc]

theorem pickOf_length {e : Bool} {pool r : List Nat} (h : pickOf e pool r) :
    r.length = if e then 1 else 0 := by
  cases e with
  | false => simp [pickOf] at h; simp [h]
  | true => obtain ⟨c, rfl, _⟩ := h; rfl

theorem pickOf_mem {e : Bool} {pool r : List Nat} (h : pickOf e pool r) :
    ∀ c ∈ r, c ∈ pool := by
  cases e with
  | false => simp [pickOf] at h; simp [h]
  | true =>
    obtain ⟨c, rfl, hc⟩ := h
    intro x hx
    rcases List.mem_singleton.mp hx with rfl
    exact hc

theorem includeCount_eq (cfg : PasswordConfig) :
    includeCount cfg = (if cfg.use_upper then 1 else 0) + (if cfg.use_lower then 1 else 0) +
      (if cfg.use_number then 1 else 0) + (if cfg.use_symbol then 1 else 0) := by
  obtain ⟨len, u, l, n, s⟩ := cfg
  cases u <;> cases l <;> cases n <;> cases s <;> rfl

theorem fillChars_spec (available : List Nat) (hav : available ≠ []) :
    ∀ (k : Nat) (g : Nat → Nat), ∃ cs g', fillChars available g k = .ok (cs, g') ∧
      cs.length = k ∧ ∀ c ∈ cs, c ∈ available := by
  intro k
  induction k with
  | zero => intro g; exact ⟨[], g, rfl, rfl, by simp⟩
  | succ k ih =>
    intro g
    obtain ⟨cs, g', hfc, hlen, hmem⟩ := ih (rngNext g).2
    have hl : 0 < available.length := List.length_pos.mpr hav
    have hidx : (rngNext g).1 % available.length < available.length := Nat.mod_lt _ hl
    refine ⟨available[(rngNext g).1 % available.length] :: cs, g', ?_, by simp [hlen], ?_⟩
    · simp [fillChars, listChoose, List.getElem?_eq_getElem hidx, hfc]
    · intro c hc
      rcases List.mem_cons.mp hc with rfl | hc
      · exact List.getElem_mem _
      · exact hmem c hc

theorem swapIdx_length (l : List Nat) (i j : Nat) : (swapIdx l i j).length = l.length := by
  simp [swapIdx]

theorem shuffleWith_length : ∀ (js l : List Nat), (shuffleWith js l).length = l.length := by
  intro js
  induction js with
  | nil => intro l; rfl
  | cons j js ih => intro l; simp [shuffleWith, ih, swapIdx_length]

theorem drawJs_length : ∀ (n : Nat) (g : Nat → Nat), (drawJs g n).length = n := by
  intro n
  induction n with
  | zero => intro g; rfl
  | succ n ih => intro g; simp [drawJs, ih]

theorem drawJs_good : ∀ (n : Nat) (g : Nat → Nat), goodJs (drawJs g n) := by
  intro n
  induction n with
  | zero => intro g; trivial
  | succ n ih =>
    intro g
    refine ⟨?_, ih (rngNext g).2⟩
    rw [drawJs_length]
    exact Nat.lt_succ_iff.mp (Nat.mod_lt _ (Nat.succ_pos n))

theorem set_getD_self (l : List Nat) (i : Nat) (h : i < l.length) :
    l.set i (l.getD i 0) = l := by
  rw [List.getD_eq_getElem _ _ h]
  apply List.ext_getElem (by simp)
  intro k hk hk2
  rcases eq_or_ne k i with rfl | hne
  · simp
  · simp [List.getElem_set_of_ne (Ne.symm hne)]

theorem swapIdx_append (m s : List Nat) (i j : Nat) (hi : i < m.length) (hj : j < m.length) :
    swapIdx (m ++ s) i j = swapIdx m i j ++ s := by
  unfold swapIdx
  rw [List.getD_append _ _ _ _ hj, List.getD_append _ _ _ _ hi, List.set_append, if_pos hi,
    List.set_append, if_pos (by simpa using hj)]

theorem swapIdx_top (m : List Nat) (a j : Nat) (hj : j ≤ m.length) :
    swapIdx (m ++ [a]) m.length j =
      (if j = m.length then m else m.set j a) ++ [m.getD j a] := by
  have hda : (m ++ [a]).getD m.length 0 = a := by
    rw [List.getD_append_right _ _ _ _ (le_refl _)]
    simp
  rcases eq_or_lt_of_le hj with rfl | hjlt
  · unfold swapIdx
    rw [hda, List.set_set, List.set_append, if_neg (lt_irrefl _)]
    simp
  · have hdj : (m ++ [a]).getD j 0 = m.getD j 0 := List.getD_append _ _ _ _ hjlt
    unfold swapIdx
    rw [hda, hdj, List.set_append, if_neg (lt_irrefl _), Nat.sub_self]
    have h1 : (m ++ [a].set 0 (m.getD j 0)).set j a = m.set j a ++ [m.getD j 0] := by
      rw [List.set_append, if_pos hjlt]
      rfl
    rw [h1, if_neg (Nat.ne_of_lt hjlt), List.getD_eq_getElem m a hjlt,
      List.getD_eq_getElem m 0 hjlt]

theorem swapIdx_top_perm (m : List Nat) (a j : Nat) (hj : j ≤ m.length) :
    ((if j = m.length then m else m.set j a) ++ [m.getD j a]).Perm (m ++ [a]) := by
  rcases eq_or_lt_of_le hj with rfl | hjlt
  · rw [if_pos rfl, List.getD_eq_default _ _ (le_refl _)]
  · rw [if_neg (Nat.ne_of_lt hjlt), List.getD_eq_getElem m a hjlt,
      List.set_eq_take_cons_drop a hjlt]
    conv_rhs => rw [← List.take_append_drop j m, List.drop_eq_getElem_cons hjlt]
    have e1 : (List.take j m ++ a :: List.drop (j + 1) m) ++ [m[j]]
        = List.take j m ++ (a :: (List.drop (j + 1) m ++ [m[j]])) := by
      rw [List.append_assoc]; rfl
    have e2 : (List.take j m ++ m[j] :: List.drop (j + 1) m) ++ [a]
        = List.take j m ++ (m[j] :: (List.drop (j + 1) m ++ [a])) := by
      rw [List.append_assoc]; rfl
    rw [e1, e2]
    apply List.Perm.append_left
    refine List.Perm.trans (List.Perm.cons a (List.perm_append_singleton _ _)) ?_
    refine List.Perm.trans (List.Perm.swap _ _ _) ?_
    exact List.Perm.cons _ ((List.perm_append_singleton a _).symm)

theorem shuffleWith_append (js : List Nat) : ∀ (m s : List Nat), goodJs js →
    js.length ≤ m.length → shuffleWith js (m ++ s) = shuffleWith js m ++ s := by
  induction js with
  | nil => intro m s _ _; rfl
  | cons j js ih =>
    intro m s hg hlen
    obtain ⟨hj, hg'⟩ := hg
    have hjs : js.length < m.length := by simp at hlen; omega
    simp only [shuffleWith]
    rw [swapIdx_append m s js.length j hjs (lt_of_le_of_lt hj hjs)]
    exact ih _ s hg' (by rw [swapIdx_length]; omega)

theorem shuffleWith_peel (j : Nat) (js m : List Nat) (a : Nat) (hj : j ≤ js.length)
    (hg : goodJs js) (hlen : js.length = m.length) :
    shuffleWith (j :: js) (m ++ [a]) =
      shuffleWith js (if j = m.length then m else m.set j a) ++ [m.getD j a] := by
  simp only [shuffleWith]
  rw [hlen, swapIdx_top m a j (hlen ▸ hj)]
  exact shuffleWith_append js _ _ hg (by split <;> simp [hlen])

theorem shuffleWith_perm (js : List Nat) : ∀ (l : List Nat), goodJs js →
    js.length = l.length → (shuffleWith js l).Perm l := by
  induction js with
  | nil => intro l _ _; exact List.Perm.refl l
  | cons j js ih =>
    intro l hg hlen
    obtain ⟨hj, hg'⟩ := hg
    have hne : l ≠ [] := by intro h; subst h; simp at hlen
    obtain ⟨m, a, rfl⟩ : ∃ m a, l = m ++ [a] :=
      ⟨l.dropLast, l.getLast hne, (List.dropLast_append_getLast hne).symm⟩
    have hm : js.length = m.length := by simp at hlen; omega
    rw [shuffleWith_peel j js m a hj hg' hm]
    have h1 : (shuffleWith js (if j = m.length then m else m.set j a)).Perm
        (if j = m.length then m else m.set j a) := ih _ hg' (by split <;> simp [hm])
    exact (h1.append_right [m.getD j a]).trans (swapIdx_top_perm m a j (hm ▸ hj))

theorem shuffle_perm (l : List Nat) (g : Nat → Nat) : (shuffle l g).Perm l :=
  shuffleWith_perm _ _ (drawJs_good _ _) (drawJs_length _ _)

theorem utf8Run_ascii : ∀ (l : List Nat), (∀ b ∈ l, b < 128) → utf8Run 0 l = some 0 := by
  intro l
  induction l with
  | nil => intro _; rfl
  | cons b rest ih =>
    intro h
    have hb : b < 128 := h b (List.mem_cons_self _ _)
    have hstep : utf8Step 0 b = some 0 := by simp [utf8Step, hb]
    simp only [utf8Run, hstep]
    exact ih (fun x hx => h x (List.mem_cons_of_mem _ hx))

theorem utf8Valid_of_ascii (l : List Nat) (h : ∀ b ∈ l, b < 128) : utf8Valid l = true := by
  simp [utf8Valid, utf8Run_ascii l h]

theorem UPPER_ascii : ∀ c ∈ UPPER, c < 128 := by decide

theorem LOWER_ascii : ∀ c ∈ LOWER, c < 128 := by decide

theorem NUMBER_ascii : ∀ c ∈ NUMBER, c < 128 := by decide

theorem SYMBOL_ascii : ∀ c ∈ SYMBOL, c < 128 := by decide

theorem includedPool_ascii (cfg : PasswordConfig) : ∀ c ∈ includedPool cfg, c < 128 := by
  intro c hc
  simp only [includedPool, List.mem_append] at hc
  rcases hc with ((hc | hc) | hc) | hc <;> split_ifs at hc <;>
    first
      | exact UPPER_ascii c hc
      | exact LOWER_ascii c hc
      | exact NUMBER_ascii c hc
      | exact SYMBOL_ascii c hc
      | simp at hc

theorem includedPool_ne_nil (cfg : PasswordConfig) (h : 0 < includeCount cfg) :
    includedPool cfg ≠ [] := by
  obtain ⟨len, u, l, n, s⟩ := cfg
  cases u <;> cases l <;> cases n <;> cases s <;>
    simp_all [includeCount, includedPool] <;> decide

theorem not_in_UPPER_of_others : ∀ c ∈ LOWER ++ (NUMBER ++ SYMBOL), c ∉ UPPER := by decide

theorem not_in_LOWER_of_others : ∀ c ∈ UPPER ++ (NUMBER ++ SYMBOL), c ∉ LOWER := by decide

theorem not_in_NUMBER_of_others : ∀ c ∈ UPPER ++ (LOWER ++ SYMBOL), c ∉ NUMBER := by decide

theorem not_in_SYMBOL_of_others : ∀ c ∈ UPPER ++ (LOWER ++ NUMBER), c ∉ SYMBOL := by decide

theorem mem_includedPool_upper {cfg : PasswordConfig} {c : Nat} (h : cfg.use_upper = true)
    (hc : c ∈ UPPER) : c ∈ includedPool cfg := by
  simp only [includedPool, h, if_true, List.mem_append]
  exact Or.inl (Or.inl (Or.inl hc))

theorem mem_includedPool_lower {cfg : PasswordConfig} {c : Nat} (h : cfg.use_lower = true)
    (hc : c ∈ LOWER) : c ∈ includedPool cfg := by
  simp only [includedPool, h, if_true, List.mem_append]
  exact Or.inl (Or.inl (Or.inr hc))

theorem mem_includedPool_number {cfg : PasswordConfig} {c : Nat} (h : cfg.use_number = true)
    (hc : c ∈ NUMBER) : c ∈ includedPool cfg := by
  simp only [includedPool, h, if_true, List.mem_append]
  exact Or.inl (Or.inr hc)

theorem mem_includedPool_symbol {cfg : PasswordConfig} {c : Nat} (h : cfg.use_symbol = true)
    (hc : c ∈ SYMBOL) : c ∈ includedPool cfg := by
  simp only [includedPool, h, if_true, List.mem_append]
  exact Or.inr hc

theorem mem_includedPool_cases {cfg : PasswordConfig} {c : Nat} (hc : c ∈ includedPool cfg) :
    (cfg.use_upper = true ∧ c ∈ UPPER) ∨ (cfg.use_lower = true ∧ c ∈ LOWER) ∨
      (cfg.use_number = true ∧ c ∈ NUMBER) ∨ (cfg.use_symbol = true ∧ c ∈ SYMBOL) := by
  simp only [includedPool, List.mem_append] at hc
  rcases hc with ((hc | hc) | hc) | hc
  · cases hu : cfg.use_upper
    · rw [hu] at hc; simp at hc
    · rw [hu] at hc; exact Or.inl ⟨rfl, by simpa using hc⟩
  · cases hl : cfg.use_lower
    · rw [hl] at hc; simp at hc
    · rw [hl] at hc; exact Or.inr (Or.inl ⟨rfl, by simpa using hc⟩)
  · cases hn : cfg.use_number
    · rw [hn] at hc; simp at hc
    · rw [hn] at hc; exact Or.inr (Or.inr (Or.inl ⟨rfl, by simpa using hc⟩))
  · cases hs : cfg.use_symbol
    · rw [hs] at hc; simp at hc
    · rw [hs] at hc; exact Or.inr (Or.inr (Or.inr ⟨rfl, by simpa using hc⟩))

theorem includedPool_no_upper {cfg : PasswordConfig} (h : cfg.use_upper = false) :
    ∀ c ∈ includedPool cfg, c ∉ UPPER := by
  intro c hc
  rcases mem_includedPool_cases hc with ⟨hf, _⟩ | ⟨_, hm⟩ | ⟨_, hm⟩ | ⟨_, hm⟩
  · rw [h] at hf; exact absurd hf (by simp)
  · exact not_in_UPPER_of_others c (List.mem_append.mpr (Or.inl hm))
  · exact not_in_UPPER_of_others c (List.mem_append.mpr (Or.inr (List.mem_append.mpr (Or.inl hm))))
  · exact not_in_UPPER_of_others c (List.mem_append.mpr (Or.inr (List.mem_append.mpr (Or.inr hm))))

theorem includedPool_no_lower {cfg : PasswordConfig} (h : cfg.use_lower = false) :
    ∀ c ∈ includedPool cfg, c ∉ LOWER := by
  intro c hc
  rcases mem_includedPool_cases hc with ⟨_, hm⟩ | ⟨hf, _⟩ | ⟨_, hm⟩ | ⟨_, hm⟩
  · exact not_in_LOWER_of_others c (List.mem_append.mpr (Or.inl hm))
  · rw [h] at hf; exact absurd hf (by simp)
  · exact not_in_LOWER_of_others c (List.mem_append.mpr (Or.inr (List.mem_append.mpr (Or.inl hm))))
  · exact not_in_LOWER_of_others c (List.mem_append.mpr (Or.inr (List.mem_append.mpr (Or.inr hm))))

theorem includedPool_no_number {cfg : PasswordConfig} (h : cfg.use_number = false) :
    ∀ c ∈ includedPool cfg, c ∉ NUMBER := by
  intro c hc
  rcases mem_includedPool_cases hc with ⟨_, hm⟩ | ⟨_, hm⟩ | ⟨hf, _⟩ | ⟨_, hm⟩
  · exact not_in_NUMBER_of_others c (List.mem_append.mpr (Or.inl hm))
  · exact not_in_NUMBER_of_others c (List.mem_append.mpr (Or.inr (List.mem_append.mpr (Or.inl hm))))
  · rw [h] at hf; exact absurd hf (by simp)
  · exact not_in_NUMBER_of_others c (List.mem_append.mpr (Or.inr (List.mem_append.mpr (Or.inr hm))))

theorem includedPool_no_symbol {cfg : PasswordConfig} (h : cfg.use_symbol = false) :
    ∀ c ∈ includedPool cfg, c ∉ SYMBOL := by
  intro c hc
  rcases mem_includedPool_cases hc with ⟨_, hm⟩ | ⟨_, hm⟩ | ⟨_, hm⟩ | ⟨hf, _⟩
  · exact not_in_SYMBOL_of_others c (List.mem_append.mpr (Or.inl hm))
  · exact not_in_SYMBOL_of_others c (List.mem_append.mpr (Or.inr (List.mem_append.mpr (Or.inl hm))))
  · exact not_in_SYMBOL_of_others c (List.mem_append.mpr (Or.inr (List.mem_append.mpr (Or.inr hm))))
  · rw [h] at hf; exact absurd hf (by simp)

theorem generate_password_spec (cfg : PasswordConfig) (g : Nat → Nat)
    (hne : includedPool cfg ≠ []) (hle : includeCount cfg ≤ cfg.length) :
    ∃ pw, generate_password cfg g = .ok pw ∧ pw.length = cfg.length ∧
      (∀ c ∈ pw, c ∈ includedPool cfg) ∧
      (cfg.use_upper = true → ∃ c, c ∈ pw ∧ c ∈ UPPER) ∧
      (cfg.use_lower = true → ∃ c, c ∈ pw ∧ c ∈ LOWER) ∧
      (cfg.use_number = true → ∃ c, c ∈ pw ∧ c ∈ NUMBER) ∧
      (cfg.use_symbol = true → ∃ c, c ∈ pw ∧ c ∈ SYMBOL) := by
  obtain ⟨ru, rl, rn, rs, g4, hasm, p1, p2, p3, p4⟩ := assembleCharsets_spec cfg g
  have hreqlen : (ru ++ (rl ++ (rn ++ rs))).length = includeCount cfg := by
    simp only [List.length_append, pickOf_length p1, pickOf_length p2, pickOf_length p3,
      pickOf_length p4, includeCount_eq]
    omega
  have hpoolne := hne
  have hempty : (includedPool cfg).isEmpty = false := by
    cases hE : (includedPool cfg).isEmpty
    · rfl
    · exact absurd (List.isEmpty_iff.mp hE) hpoolne
  obtain ⟨fill, g5, hfill, hfilllen, hfillmem⟩ :=
    fillChars_spec (includedPool cfg) hpoolne (cfg.length - (ru ++ (rl ++ (rn ++ rs))).length) g4
  have hnotlt : ¬ cfg.length < (ru ++ (rl ++ (rn ++ rs))).length := by omega
  have hmem_req : ∀ c ∈ ru ++ (rl ++ (rn ++ rs)), c ∈ includedPool cfg := by
    intro c hc
    simp only [List.mem_append] at hc
    rcases hc with hc | hc | hc | hc
    · cases hu : cfg.use_upper
      · rw [hu] at p1; simp only [pickOf, Bool.false_eq_true, if_false] at p1
        rw [p1] at hc; simp at hc
      · exact mem_includedPool_upper hu (pickOf_mem p1 c hc)
    · cases hl : cfg.use_lower
      · rw [hl] at p2; simp only [pickOf, Bool.false_eq_true, if_false] at p2
        rw [p2] at hc; simp at hc
      · exact mem_includedPool_lower hl (pickOf_mem p2 c hc)
    · cases hn : cfg.use_number
      · rw [hn] at p3; simp only [pickOf, Bool.false_eq_true, if_false] at p3
        rw [p3] at hc; simp at hc
      · exact mem_includedPool_number hn (pickOf_mem p3 c hc)
    · cases hs : cfg.use_symbol
      · rw [hs] at p4; simp only [pickOf, Bool.false_eq_true, if_false] at p4
        rw [p4] at hc; simp at hc
      · exact mem_includedPool_symbol hs (pickOf_mem p4 c hc)
  have hmem_pc : ∀ c ∈ (ru ++ (rl ++ (rn ++ rs))) ++ fill, c ∈ includedPool cfg := by
    intro c hc
    rcases List.mem_append.mp hc with hc | hc
    · exact hmem_req c hc
    · exact hfillmem c hc
  have hperm := shuffle_perm ((ru ++ (rl ++ (rn ++ rs))) ++ fill) g5
  have hmem_pw : ∀ c ∈ shuffle ((ru ++ (rl ++ (rn ++ rs))) ++ fill) g5,
      c ∈ includedPool cfg := fun c hc => hmem_pc c (hperm.mem_iff.mp hc)
  have hvalid : utf8Valid (shuffle ((ru ++ (rl ++ (rn ++ rs))) ++ fill) g5) = true :=
    utf8Valid_of_ascii _ (fun b hb => includedPool_ascii cfg b (hmem_pw b hb))
  have hgen : generate_password cfg g =
      .ok (shuffle ((ru ++ (rl ++ (rn ++ rs))) ++ fill) g5) := by
    simp only [generate_password, hasm, CharSetBuilder.build, hempty, Bool.false_eq_true,
      if_false, hnotlt, hfill, hvalid, if_true]
  refine ⟨shuffle ((ru ++ (rl ++ (rn ++ rs))) ++ fill) g5, hgen, ?_, hmem_pw, ?_, ?_, ?_, ?_⟩
  · rw [hperm.length_eq, List.length_append, hfilllen]
    omega
  · intro hu
    rw [hu] at p1
    simp only [pickOf, if_true] at p1
    obtain ⟨c, hru, hcU⟩ := p1
    refine ⟨c, hperm.mem_iff.mpr ?_, hcU⟩
    subst hru
    simp
  · intro hl
    rw [hl] at p2
    simp only [pickOf, if_true] at p2
    obtain ⟨c, hrl, hcL⟩ := p2
    refine ⟨c, hperm.mem_iff.mpr ?_, hcL⟩
    subst hrl
    simp
  · intro hn
    rw [hn] at p3
    simp only [pickOf, if_true] at p3
    obtain ⟨c, hrn, hcN⟩ := p3
    refine ⟨c, hperm.mem_iff.mpr ?_, hcN⟩
    subst hrn
    simp
  · intro hs
    rw [hs] at p4
    simp only [pickOf, if_true] at p4
    obtain ⟨c, hrs, hcS⟩ := p4
    refine ⟨c, hperm.mem_iff.mpr ?_, hcS⟩
    subst hrs
    simp

theorem validate_ok_iff (cfg : PasswordConfig) :
    validate_password_config cfg = .ok () ↔
      (cfg.length ≠ 0 ∧ cfg.length ≤ 128 ∧ 0 < includeCount cfg ∧
        includeCount cfg ≤ cfg.length) := by
  obtain ⟨len, u, l, n, s⟩ := cfg
  cases u <;> cases l <;> cases n <;> cases s <;>
    simp only [validate_password_config, includeCount] <;>
    split_ifs <;> simp_all <;> omega

theorem validate_cases (cfg : PasswordConfig) :
    validate_password_config cfg =
      if cfg.length = 0 then .error "Password length cannot be zero"
      else if 128 < cfg.length then .error "Password length cannot exceed 128 characters"
      else if includeCount cfg = 0 then .error "At least one character type must be selected"
      else if cfg.length < includeCount cfg then
        .error (lengthTooShortMsg cfg.length (includeCount cfg))
      else .ok () := by
  obtain ⟨len, u, l, n, s⟩ := cfg
  cases u <;> cases l <;> cases n <;> cases s <;>
    simp [validate_password_config, includeCount]

theorem prodFact_perm {l1 l2 : List Nat} (h : List.Perm l1 l2) :
    prodFact l1 = prodFact l2 := by
  induction h with
  | nil => rfl
  | cons x h ih =>
    simp only [prodFact]
    rw [ih, h.count_eq]
  | swap x y s =>
    simp only [prodFact, List.count_cons]
    rcases eq_or_ne x y with rfl | hne
    · simp
    · simp only [beq_iff_eq, hne, Ne.symm hne, if_false]
      ring
  | trans h1 h2 ih1 ih2 => rw [ih1, ih2]

theorem prodFact_append_singleton (s : List Nat) (c : Nat) :
    prodFact (s ++ [c]) = (s.count c + 1) * prodFact s := by
  rw [prodFact_perm (List.perm_append_singleton c s)]
  rfl

theorem mem_choiceSpace_succ {n : Nat} {v : List Nat} :
    v ∈ choiceSpace (n + 1) ↔ ∃ j, j < n + 1 ∧ ∃ js, js ∈ choiceSpace n ∧ j :: js = v := by
  simp [choiceSpace]

theorem choiceSpace_length : ∀ (n : Nat) (js : List Nat), js ∈ choiceSpace n →
    js.length = n := by
  intro n
  induction n with
  | zero => intro js h; simp [choiceSpace] at h; simp [h]
  | succ n ih =>
    intro js h
    rw [mem_choiceSpace_succ] at h
    obtain ⟨j, hj, js0, hjs0, heq⟩ := h
    subst heq
    simp [ih js0 hjs0]

theorem choiceSpace_good : ∀ (n : Nat) (js : List Nat), js ∈ choiceSpace n → goodJs js := by
  intro n
  induction n with
  | zero => intro js h; simp [choiceSpace] at h; simp [h, goodJs]
  | succ n ih =>
    intro js h
    rw [mem_choiceSpace_succ] at h
    obtain ⟨j, hj, js0, hjs0, heq⟩ := h
    subst heq
    refine ⟨?_, ih js0 hjs0⟩
    rw [choiceSpace_length n js0 hjs0]
    omega

theorem drawJs_mem_choiceSpace : ∀ (n : Nat) (g : Nat → Nat),
    drawJs g n ∈ choiceSpace n := by
  intro n
  induction n with
  | zero => intro g; simp [drawJs, choiceSpace]
  | succ n ih =>
    intro g
    rw [mem_choiceSpace_succ]
    exact ⟨_, Nat.mod_lt _ (Nat.succ_pos n), _, ih (rngNext g).2, rfl⟩

theorem choiceSpace_image_disjoint (n : Nat) :
    ∀ x ∈ Finset.range (n + 1), ∀ y ∈ Finset.range (n + 1), x ≠ y →
      Disjoint ((choiceSpace n).image (fun js => x :: js))
        ((choiceSpace n).image (fun js => y :: js)) := by
  intro x _ y _ hxy
  rw [Finset.disjoint_left]
  intro z hz1 hz2
  simp only [Finset.mem_image] at hz1 hz2
  obtain ⟨a, _, ha⟩ := hz1
  obtain ⟨b, _, hb⟩ := hz2
  rw [← ha] at hb
  injection hb with h1 _
  exact hxy h1.symm

theorem cons_list_injective (j : Nat) : Function.Injective (fun js : List Nat => j :: js) :=
  fun a b hab => by injection hab

theorem choiceSpace_card : ∀ n, (choiceSpace n).card = Nat.factorial n := by
  intro n
  induction n with
  | zero => simp [choiceSpace, Nat.factorial]
  | succ n ih =>
    simp only [choiceSpace]
    rw [Finset.card_biUnion (choiceSpace_image_disjoint n)]
    have hterm : ∀ j ∈ Finset.range (n + 1),
        ((choiceSpace n).image (fun js => j :: js)).card = Nat.factorial n := by
      intro j _
      rw [Finset.card_image_of_injective _ (cons_list_injective j), ih]
    rw [Finset.sum_congr rfl hterm, Finset.sum_const, Finset.card_range, smul_eq_mul,
      Nat.factorial_succ]

theorem getD_append_last (m : List Nat) (a : Nat) (j : Nat) (hj : j ≤ m.length) :
    (m ++ [a]).getD j 0 = m.getD j a := by
  rcases eq_or_lt_of_le hj with rfl | hjlt
  · rw [List.getD_append_right _ _ _ _ (le_refl _), List.getD_eq_default _ _ (le_refl _)]
    simp
  · rw [List.getD_append _ _ _ _ hjlt, List.getD_eq_getElem _ _ hjlt,
      List.getD_eq_getElem _ _ hjlt]

theorem card_filter_getD_eq_count (l : List Nat) (x : Nat) :
    ((Finset.range l.length).filter (fun j => l.getD j 0 = x)).card = l.count x := by
  induction l using List.reverseRecOn with
  | nil => simp
  | append_singleton m a ih =>
    have hgda : (m ++ [a]).getD m.length 0 = a := by
      rw [List.getD_append_right _ _ _ _ (le_refl _)]
      simp
    have hfc : Finset.filter (fun j => (m ++ [a]).getD j 0 = x) (Finset.range m.length) =
        Finset.filter (fun j => m.getD j 0 = x) (Finset.range m.length) :=
      Finset.filter_congr (fun j hj => by
        rw [List.getD_append _ _ _ _ (Finset.mem_range.mp hj)])
    have hlen : (m ++ [a]).length = m.length + 1 := by simp
    rw [hlen, Finset.range_succ, Finset.filter_insert, List.count_append]
    by_cases hax : a = x
    · rw [if_pos (by rw [hgda]; exact hax)]
      rw [Finset.card_insert_of_not_mem (by simp), hfc, ih]
      simp [List.count_singleton, hax]
    · rw [if_neg (by rw [hgda]; exact hax)]
      rw [hfc, ih]
      simp [List.count_singleton, hax]

theorem shuffleWith_filter_card (n : Nat) : ∀ (l t : List Nat), l.length = n →
    List.Perm t l →
    ((choiceSpace n).filter (fun js => shuffleWith js l = t)).card = prodFact l := by
  induction n with
  | zero =>
    intro l t hl ht
    rw [List.length_eq_zero] at hl
    subst hl
    rw [List.perm_nil] at ht
    subst ht
    decide
  | succ n ih =>
    intro l t hl ht
    have hlne : l ≠ [] := by intro h; subst h; simp at hl
    obtain ⟨m, a, rfl⟩ : ∃ m a, l = m ++ [a] :=
      ⟨l.dropLast, l.getLast hlne, (List.dropLast_append_getLast hlne).symm⟩
    have hm : m.length = n := by simp at hl; omega
    have htlen : t.length = n + 1 := ht.length_eq.trans hl
    have htne : t ≠ [] := by intro h; subst h; simp at htlen
    obtain ⟨tm, tc, rfl⟩ : ∃ tm tc, t = tm ++ [tc] :=
      ⟨t.dropLast, t.getLast htne, (List.dropLast_append_getLast htne).symm⟩
    have htm : tm.length = n := by simp at htlen; omega
    simp only [choiceSpace]
    rw [Finset.filter_biUnion]
    rw [Finset.card_biUnion (fun x hx y hy hxy =>
      Finset.disjoint_filter_filter (choiceSpace_image_disjoint n x hx y hy hxy))]
    have hterm : ∀ j ∈ Finset.range (n + 1),
        (((choiceSpace n).image (fun js => j :: js)).filter
          (fun js => shuffleWith js (m ++ [a]) = tm ++ [tc])).card =
        if m.getD j a = tc then prodFact tm else 0 := by
      intro j hj
      have hj' : j ≤ n := Nat.lt_succ_iff.mp (Finset.mem_range.mp hj)
      rw [Finset.filter_image, Finset.card_image_of_injective _ (cons_list_injective j)]
      have hchar : ∀ js ∈ choiceSpace n,
          shuffleWith (j :: js) (m ++ [a]) = tm ++ [tc] ↔
            (shuffleWith js (if j = m.length then m else m.set j a) = tm ∧
              m.getD j a = tc) := by
        intro js hjs
        have hlenjs := choiceSpace_length n js hjs
        have hgood := choiceSpace_good n js hjs
        rw [shuffleWith_peel j js m a (by omega) hgood (by omega)]
        constructor
        · intro he
          obtain ⟨h1, h2⟩ := List.append_inj' he rfl
          refine ⟨h1, ?_⟩
          injection h2
        · rintro ⟨h1, h2⟩
          rw [h1, h2]
      by_cases htc : m.getD j a = tc
      · rw [if_pos htc]
        have hfeq : Finset.filter
            (fun js => shuffleWith (j :: js) (m ++ [a]) = tm ++ [tc]) (choiceSpace n) =
            Finset.filter (fun js =>
              shuffleWith js (if j = m.length then m else m.set j a) = tm)
              (choiceSpace n) :=
          Finset.filter_congr (fun js hjs => (hchar js hjs).trans (and_iff_left htc))
        rw [hfeq]
        have hbody := swapIdx_top_perm m a j (by omega)
        rw [htc] at hbody
        have h3 : List.Perm (tm ++ [tc])
            ((if j = m.length then m else m.set j a) ++ [tc]) := ht.trans hbody.symm
        have h4 : List.Perm (tc :: tm) (tc :: (if j = m.length then m else m.set j a)) :=
          ((List.perm_append_singleton tc tm).symm.trans h3).trans
            (List.perm_append_singleton tc _)
        have htmperm := h4.cons_inv
        rw [ih (if j = m.length then m else m.set j a) tm (by split <;> simp [hm]) htmperm]
        exact prodFact_perm htmperm.symm
      · rw [if_neg htc]
        rw [Finset.filter_false_of_mem
          (fun js hjs => by rw [hchar js hjs]; exact fun hcon => htc hcon.2)]
        exact Finset.card_empty
    rw [Finset.sum_congr rfl hterm, ← Finset.sum_filter, Finset.sum_const, smul_eq_mul]
    have hposfilter : Finset.filter (fun j => m.getD j a = tc) (Finset.range (n + 1)) =
        Finset.filter (fun j => (m ++ [a]).getD j 0 = tc) (Finset.range (n + 1)) :=
      Finset.filter_congr (fun j hj => by
        rw [getD_append_last m a j (by
          have := Finset.mem_range.mp hj
          omega)])
    have hlen2 : (m ++ [a]).length = n + 1 := by simp [hm]
    rw [hposfilter, show n + 1 = (m ++ [a]).length from hlen2.symm,
      card_filter_getD_eq_count (m ++ [a]) tc]
    have hcount : (m ++ [a]).count tc = tm.count tc + 1 := by
      rw [← ht.count_eq tc, List.count_append]
      simp [List.count_singleton]
    rw [hcount, ← prodFact_perm ht, prodFact_append_singleton]

theorem shuffleCount_eq_prodFact (l t : List Nat) (ht : List.Perm t l) :
    shuffleCount l t = prodFact l :=
  shuffleWith_filter_card l.length l t rfl ht

/- ------------------------------------------------------------------ -/
/- Claims                                                              -/
/- ------------------------------------------------------------------ -/

/-- C1: for every configuration that passes validation, password generation
succeeds and the generated password's length is exactly `config.length`. -/
theorem C1_valid_config_generates_exact_length (cfg : PasswordConfig) (g : Nat → Nat)
    (h : validate_password_config cfg = .ok ()) :
    ∃ pw, generate_password cfg g = .ok pw ∧ pw.length = cfg.length := by
  obtain ⟨_, _, hpos, hle⟩ := (validate_ok_iff cfg).mp h
  obtain ⟨pw, hgen, hlen, _⟩ :=
    generate_password_spec cfg g (includedPool_ne_nil cfg hpos) hle
  exact ⟨pw, hgen, hlen⟩

theorem C1_witness :
    validate_password_config ⟨4, true, true, true, true⟩ = .ok () ∧
      ∃ pw, generate_password ⟨4, true, true, true, true⟩ (fun _ => 0) = .ok pw ∧
        pw.length = (⟨4, true, true, true, true⟩ : PasswordConfig).length :=
  ⟨rfl, C1_valid_config_generates_exact_length ⟨4, true, true, true, true⟩ (fun _ => 0) rfl⟩

/-- C2: for every configuration that passes validation, the generated password
contains at least one character from the pool of each included class and no
character from the pool of any class that is not included. -/
theorem C2_class_coverage_and_exclusion (cfg : PasswordConfig) (g : Nat → Nat) (pw : List Nat)
    (h : validate_password_config cfg = .ok ()) (hgen : generate_password cfg g = .ok pw) :
    (cfg.use_upper = true → ∃ c, c ∈ pw ∧ c ∈ UPPER) ∧
      (cfg.use_lower = true → ∃ c, c ∈ pw ∧ c ∈ LOWER) ∧
      (cfg.use_number = true → ∃ c, c ∈ pw ∧ c ∈ NUMBER) ∧
      (cfg.use_symbol = true → ∃ c, c ∈ pw ∧ c ∈ SYMBOL) ∧
      (cfg.use_upper = false → ∀ c ∈ pw, c ∉ UPPER) ∧
      (cfg.use_lower = false → ∀ c ∈ pw, c ∉ LOWER) ∧
      (cfg.use_number = false → ∀ c ∈ pw, c ∉ NUMBER) ∧
      (cfg.use_symbol = false → ∀ c ∈ pw, c ∉ SYMBOL) := by
  obtain ⟨_, _, hpos, hle⟩ := (validate_ok_iff cfg).mp h
  obtain ⟨pw', hgen', _, hmem, hU, hL, hN, hS⟩ :=
    generate_password_spec cfg g (includedPool_ne_nil cfg hpos) hle
  rw [hgen] at hgen'
  injection hgen' with hpw
  subst hpw
  refine ⟨hU, hL, hN, hS, ?_, ?_, ?_, ?_⟩
  · exact fun hf c hc => includedPool_no_upper hf c (hmem c hc)
  · exact fun hf c hc => includedPool_no_lower hf c (hmem c hc)
  · exact fun hf c hc => includedPool_no_number hf c (hmem c hc)
  · exact fun hf c hc => includedPool_no_symbol hf c (hmem c hc)

theorem C2_witness :
    validate_password_config ⟨4, true, true, true, false⟩ = .ok () ∧
      generate_password ⟨4, true, true, true, false⟩ (fun _ => 0) = .ok [97, 49, 65, 65] ∧
      (((⟨4, true, true, true, false⟩ : PasswordConfig).use_upper = true →
          ∃ c, c ∈ [97, 49, 65, 65] ∧ c ∈ UPPER) ∧
        ((⟨4, true, true, true, false⟩ : PasswordConfig).use_symbol = false →
          ∀ c ∈ [97, 49, 65, 65], c ∉ SYMBOL)) := by
  refine ⟨rfl, by rfl, ?_, ?_⟩
  · exact (C2_class_coverage_and_exclusion ⟨4, true, true, true, false⟩ (fun _ => 0)
      [97, 49, 65, 65] rfl (by rfl)).1
  · exact (C2_class_coverage_and_exclusion ⟨4, true, true, true, false⟩ (fun _ => 0)
      [97, 49, 65, 65] rfl (by rfl)).2.2.2.2.2.2.2

/-- C3: validation fails with the zero-length error when the length is 0, the
too-long error when the length exceeds 128, the no-class error when no class
is included, and the length-below-class-count error when the length is below
the number of included classes, in that order; every other configuration
validates successfully.  (The validator is a pure function of the
configuration by construction of the embedding.) -/
theorem C3_validation_order (cfg : PasswordConfig) :
    (cfg.length = 0 →
      validate_password_config cfg = .error "Password length cannot be zero") ∧
    (cfg.length ≠ 0 → 128 < cfg.length →
      validate_password_config cfg = .error "Password length cannot exceed 128 characters") ∧
    (cfg.length ≠ 0 → cfg.length ≤ 128 → includeCount cfg = 0 →
      validate_password_config cfg = .error "At least one character type must be selected") ∧
    (cfg.length ≠ 0 → cfg.length ≤ 128 → 0 < includeCount cfg →
      cfg.length < includeCount cfg →
      validate_password_config cfg =
        .error (lengthTooShortMsg cfg.length (includeCount cfg))) ∧
    (cfg.length ≠ 0 → cfg.length ≤ 128 → 0 < includeCount cfg →
      includeCount cfg ≤ cfg.length → validate_password_config cfg = .ok ()) := by
  refine ⟨?_, ?_, ?_, ?_, ?_⟩ <;> rw [validate_cases]
  · intro h1; rw [if_pos h1]
  · intro h1 h2; rw [if_neg h1, if_pos h2]
  · intro h1 h2 h3; rw [if_neg h1, if_neg (by omega), if_pos h3]
  · intro h1 h2 h3 h4; rw [if_neg h1, if_neg (by omega), if_neg (by omega), if_pos h4]
  · intro h1 h2 h3 h4; rw [if_neg h1, if_neg (by omega), if_neg (by omega), if_neg (by omega)]

theorem C3_witness :
    validate_password_config ⟨0, true, true, true, true⟩ =
        .error "Password length cannot be zero" ∧
      validate_password_config ⟨129, false, true, false, false⟩ =
        .error "Password length cannot exceed 128 characters" ∧
      validate_password_config ⟨10, false, false, false, false⟩ =
        .error "At least one character type must be selected" ∧
      validate_password_config ⟨2, true, true, true, true⟩ = .error (lengthTooShortMsg 2 4) ∧
      validate_password_config ⟨8, true, true, true, false⟩ = .ok () :=
  ⟨(C3_validation_order ⟨0, true, true, true, true⟩).1 rfl,
   (C3_validation_order ⟨129, false, true, false, false⟩).2.1 (by decide) (by decide),
   (C3_validation_order ⟨10, false, false, false, false⟩).2.2.1 (by decide) (by decide)
     (by decide),
   (C3_validation_order ⟨2, true, true, true, true⟩).2.2.2.1 (by decide) (by decide)
     (by decide) (by decide),
   (C3_validation_order ⟨8, true, true, true, false⟩).2.2.2.2 (by decide) (by decide)
     (by decide) (by decide)⟩

/-- C4 counterexample: the claim that the pools exclude all of I, l, 1, O, 0
is false, because the digit pool contains the byte 49, which is the
character 1. -/
theorem C4_counterexample :
    ¬ (∀ c ∈ UPPER ++ (LOWER ++ (NUMBER ++ SYMBOL)),
        c ≠ 73 ∧ c ≠ 108 ∧ c ≠ 49 ∧ c ≠ 79 ∧ c ≠ 48) := by decide

/-- C4 (amended): the four pools are fixed, non-empty and pairwise disjoint,
and they exclude the visually ambiguous characters I (73), l (108), O (79)
and 0 (48); the digit 1 (49), however, is present in the digit pool. -/
theorem C4_pools_amended :
    (UPPER ≠ [] ∧ LOWER ≠ [] ∧ NUMBER ≠ [] ∧ SYMBOL ≠ []) ∧
      (UPPER.inter LOWER = [] ∧ UPPER.inter NUMBER = [] ∧ UPPER.inter SYMBOL = [] ∧
        LOWER.inter NUMBER = [] ∧ LOWER.inter SYMBOL = [] ∧ NUMBER.inter SYMBOL = []) ∧
      (UPPER ++ (LOWER ++ (NUMBER ++ SYMBOL))).filter
        (fun c => c == 73 || c == 108 || c == 79 || c == 48) = [] ∧
      NUMBER.contains 49 = true := by decide

/-- C5: whenever process_genpass fails, nothing is written to stdout and
nothing to stderr: the caller receives only the error and no partial password
is ever emitted. -/
theorem C5_no_output_on_error (len : Nat) (u l n s : Bool) (g : Nat → Nat) (score : Nat)
    (e : String) (h : (process_genpass len u l n s g score).1 = .error e) :
    (process_genpass len u l n s g score).2.1 = [] ∧
      (process_genpass len u l n s g score).2.2 = [] := by
  cases hv : validate_password_config ⟨len, u, l, n, s⟩ with
  | error e2 => simp only [process_genpass, hv]; exact ⟨by trivial, by trivial⟩
  | ok v =>
    cases v
    cases hg : generate_password ⟨len, u, l, n, s⟩ g with
    | error e2 => simp only [process_genpass, hv, hg]; exact ⟨by trivial, by trivial⟩
    | ok pw =>
      simp only [process_genpass, hv, hg] at h
      exact absurd h (by simp)

theorem C5_witness :
    (process_genpass 0 true true true true (fun _ => 0) 0).1 =
        .error "Password length cannot be zero" ∧
      ((process_genpass 0 true true true true (fun _ => 0) 0).2.1 = [] ∧
        (process_genpass 0 true true true true (fun _ => 0) 0).2.2 = []) :=
  ⟨rfl, C5_no_output_on_error 0 true true true true (fun _ => 0) 0 _ rfl⟩

/-- C6: charset assembly visits the included classes in the fixed order
Upper, Lower, Digit, Symbol: on success the combined pool is the
concatenation of the included classes' pools in that order, and the required
characters consist of exactly one freshly drawn character per included class,
in that same order, so their number equals the number of included classes. -/
theorem C6_assembly_order (cfg : PasswordConfig) (g : Nat → Nat) (b : CharSetBuilder)
    (g' : Nat → Nat) (h : assembleCharsets cfg g = .ok (b, g')) :
    b.chars = includedPool cfg ∧ b.required_chars.length = includeCount cfg ∧
      ∃ ru rl rn rs, b.required_chars = ru ++ (rl ++ (rn ++ rs)) ∧
        pickOf cfg.use_upper UPPER ru ∧ pickOf cfg.use_lower LOWER rl ∧
        pickOf cfg.use_number NUMBER rn ∧ pickOf cfg.use_symbol SYMBOL rs := by
  obtain ⟨ru, rl, rn, rs, g4, hasm, p1, p2, p3, p4⟩ := assembleCharsets_spec cfg g
  rw [hasm] at h
  injection h with hpair
  cases hpair
  refine ⟨rfl, ?_, ru, rl, rn, rs, rfl, p1, p2, p3, p4⟩
  simp only [List.length_append, pickOf_length p1, pickOf_length p2, pickOf_length p3,
    pickOf_length p4, includeCount_eq]
  omega

theorem C6_witness :
    assembleCharsets ⟨4, true, false, true, false⟩ (fun _ => 0) =
        .ok (⟨UPPER ++ NUMBER, [65, 49]⟩, fun _ => 0) ∧
      (⟨UPPER ++ NUMBER, [65, 49]⟩ : CharSetBuilder).chars =
        includedPool ⟨4, true, false, true, false⟩ :=
  ⟨by rfl, (C6_assembly_order ⟨4, true, false, true, false⟩ (fun _ => 0)
      ⟨UPPER ++ NUMBER, [65, 49]⟩ (fun _ => 0) (by rfl)).1⟩

/-- C7: the text-encoding failure branch of generate_password is unreachable:
every error the function can return is one of the other messages, and the
encoding error message is not among them, because the bytes of the assembled
password always come from the fixed ASCII pools. -/
theorem C7_encoding_error_unreachable (cfg : PasswordConfig) (g : Nat → Nat) (e : String)
    (h : generate_password cfg g = .error e) :
    e ∈ genpassErrors ∧ encodingErrorMsg ∉ genpassErrors := by
  refine ⟨?_, by decide⟩
  obtain ⟨ru, rl, rn, rs, g4, hasm, p1, p2, p3, p4⟩ := assembleCharsets_spec cfg g
  have hreqlen : (ru ++ (rl ++ (rn ++ rs))).length =
      includeCount cfg := by
    simp only [List.length_append, pickOf_length p1, pickOf_length p2, pickOf_length p3,
      pickOf_length p4, includeCount_eq]
    omega
  by_cases hne : includedPool cfg = []
  · have hE : (includedPool cfg).isEmpty = true := by simp [List.isEmpty_iff, hne]
    simp only [generate_password, hasm, CharSetBuilder.build, hE, if_true] at h
    injection h with he
    subst he
    simp [genpassErrors]
  · have hE : (includedPool cfg).isEmpty = false := by
      cases hE2 : (includedPool cfg).isEmpty
      · rfl
      · exact absurd (List.isEmpty_iff.mp hE2) hne
    by_cases hlt : cfg.length < (ru ++ (rl ++ (rn ++ rs))).length
    · simp only [generate_password, hasm, CharSetBuilder.build, hE, Bool.false_eq_true,
        if_false, if_pos hlt] at h
      injection h with he
      subst he
      simp [genpassErrors]
    · obtain ⟨pw, hok, _⟩ := generate_password_spec cfg g hne (by omega)
      rw [hok] at h
      exact absurd h (by simp)

theorem C7_witness :
    generate_password ⟨4, false, false, false, false⟩ (fun _ => 0) =
        .error "No available characters for password generation" ∧
      ("No available characters for password generation" ∈ genpassErrors ∧
        encodingErrorMsg ∉ genpassErrors) :=
  ⟨rfl, C7_encoding_error_unreachable ⟨4, false, false, false, false⟩ (fun _ => 0) _ rfl⟩

/-- C8: strength evaluation is total with no failure mode: it always produces
the score line and a tier label, mapping scores 0 and 1 to the weak label,
2 and 3 to the moderate label, 4 to the strong label and every other score to
the unknown label; and it never blocks or alters the password output of
process_genpass, whose result and stdout are independent of the score. -/
theorem C8_strength_evaluation_total (password : List Nat) (score len : Nat)
    (u l n s : Bool) (g : Nat → Nat) :
    evaluate_password_strength password score =
        [("Password strength: " ++ toString score), strengthLine score] ∧
      ((score = 0 ∨ score = 1) →
        strengthLine score = "Weak password - consider adding more characters or complexity") ∧
      ((score = 2 ∨ score = 3) → strengthLine score = "Moderate password strength") ∧
      (score = 4 → strengthLine score = "Strong password") ∧
      (5 ≤ score → strengthLine score = "Unknown password strength score") ∧
      (process_genpass len u l n s g score).1 = (process_genpass len u l n s g 0).1 ∧
      (process_genpass len u l n s g score).2.1 = (process_genpass len u l n s g 0).2.1 := by
  have hind : (process_genpass len u l n s g score).1 = (process_genpass len u l n s g 0).1 ∧
      (process_genpass len u l n s g score).2.1 =
        (process_genpass len u l n s g 0).2.1 := by
    cases hv : validate_password_config ⟨len, u, l, n, s⟩ with
    | error e2 => simp only [process_genpass, hv]; exact ⟨by trivial, by trivial⟩
    | ok v =>
      cases v
      cases hg : generate_password ⟨len, u, l, n, s⟩ g with
      | error e2 => simp only [process_genpass, hv, hg]; exact ⟨by trivial, by trivial⟩
      | ok pw => simp only [process_genpass, hv, hg]; exact ⟨by trivial, by trivial⟩
  refine ⟨rfl, ?_, ?_, ?_, ?_, hind.1, hind.2⟩
  · rintro (rfl | rfl) <;> rfl
  · rintro (rfl | rfl) <;> rfl
  · rintro rfl; rfl
  · intro h5
    simp only [strengthLine]
    rw [if_neg (by omega), if_neg (by omega), if_neg (by omega), if_neg (by omega),
      if_neg (by omega)]

theorem C8_witness :
    (5 ≤ 7 ∧ strengthLine 7 = "Unknown password strength score") ∧
      (strengthLine 4 = "Strong password") :=
  ⟨⟨by decide, (C8_strength_evaluation_total [] 7 0 true true true true
      (fun _ => 0)).2.2.2.2.1 (by decide)⟩,
    (C8_strength_evaluation_total [] 4 0 true true true true
      (fun _ => 0)).2.2.2.1 rfl⟩

/-- C10: under the precondition that the configuration passes validation, the
u8 subtraction computing the fill count cannot underflow (the required
characters never outnumber `config.length`) and generation succeeds; a
configuration violating the precondition (length 2, all four classes) has no
such guarantee and hits the underflow. -/
theorem C10_fill_count_no_underflow (cfg : PasswordConfig) (g : Nat → Nat)
    (h : validate_password_config cfg = .ok ()) :
    (∀ b g', assembleCharsets cfg g = .ok (b, g') →
      b.required_chars.length ≤ cfg.length) ∧
      (∃ pw, generate_password cfg g = .ok pw) ∧
      generate_password ⟨2, true, true, true, true⟩ (fun _ => 0) = .error underflowMsg := by
  obtain ⟨hne0, h128, hpos, hle⟩ := (validate_ok_iff cfg).mp h
  refine ⟨?_, ?_, by rfl⟩
  · intro b g' hasm'
    obtain ⟨ru, rl, rn, rs, g4, hasm, p1, p2, p3, p4⟩ := assembleCharsets_spec cfg g
    rw [hasm] at hasm'
    injection hasm' with hpair
    cases hpair
    have : (ru ++ (rl ++ (rn ++ rs))).length = includeCount cfg := by
      simp only [List.length_append, pickOf_length p1, pickOf_length p2, pickOf_length p3,
        pickOf_length p4, includeCount_eq]
      omega
    simp only [this]
    exact hle
  · obtain ⟨pw, hok, _⟩ :=
      generate_password_spec cfg g (includedPool_ne_nil cfg hpos) hle
    exact ⟨pw, hok⟩

theorem C10_witness :
    validate_password_config ⟨4, true, true, true, true⟩ = .ok () ∧
      generate_password ⟨2, true, true, true, true⟩ (fun _ => 0) = .error underflowMsg :=
  ⟨rfl, (C10_fill_count_no_underflow ⟨4, true, true, true, true⟩ (fun _ => 0) rfl).2.2⟩

/-- C9: after seeding with the required characters and sampling the fill,
generation permutes the full sequence with a Fisher-Yates shuffle whose
index draws range over exactly the space `choiceSpace n` of `n!` vectors;
for uniform draws every permutation of the character multiset is equally
likely: any two rearrangements of the sequence are produced by the same
number of draw vectors.  The shuffle used by generate_password is this
shuffle. -/
theorem C9_shuffle_uniform (l t1 t2 : List Nat) (g : Nat → Nat)
    (h1 : List.Perm t1 l) (h2 : List.Perm t2 l) :
    shuffleCount l t1 = shuffleCount l t2 ∧
      (choiceSpace l.length).card = Nat.factorial l.length ∧
      drawJs g l.length ∈ choiceSpace l.length ∧
      shuffle l g = shuffleWith (drawJs g l.length) l :=
  ⟨(shuffleCount_eq_prodFact l t1 h1).trans (shuffleCount_eq_prodFact l t2 h2).symm,
    choiceSpace_card l.length, drawJs_mem_choiceSpace l.length g, rfl⟩

theorem C9_witness :
    List.Perm ([1, 2] : List Nat) [2, 1] ∧ List.Perm ([2, 1] : List Nat) [2, 1] ∧
      shuffleCount [2, 1] [1, 2] = shuffleCount [2, 1] [2, 1] :=
  ⟨by decide, by decide,
    (C9_shuffle_uniform [2, 1] [1, 2] [2, 1] (fun _ => 0) (by decide) (by decide)).1⟩

end RCli
